import Mathlib

set_option maxHeartbeats 1000000
set_option maxRecDepth 8192

/-!
Verification of the suggestion-parsing and interactive-selection logic of the
gocommit command-line tool (main.go). Strings are modeled as Lean Strings
(lists of unicode characters); the stateful read loops are modeled as total
functions over an explicit finite list of read events, where a result of
none means the loop is still waiting for further input.
-/

/-- Models unicode.IsSpace from the Go standard library (the White_Space
property), used by strings.TrimSpace. -/
def goIsSpace (c : Char) : Bool :=
  c = '\t' || c = '\n' || c = '\x0b' || c = '\x0c' || c = '\r' || c = ' ' ||
  c = '\x85' || c = '\xa0' || c = '\u1680' ||
  ('\u2000' ≤ c && c ≤ '\u200a') || c = '\u2028' || c = '\u2029' ||
  c = '\u202f' || c = '\u205f' || c = '\u3000'

/-- Drop trailing whitespace characters, on character lists. -/
def trimRightL (l : List Char) : List Char :=
  (l.reverse.dropWhile goIsSpace).reverse

/-- Drop leading and trailing whitespace characters, on character lists. -/
def trimSpaceL (l : List Char) : List Char :=
  trimRightL (l.dropWhile goIsSpace)

/-- Models strings.TrimSpace from the Go standard library. -/
def trimSpace (s : String) : String :=
  ⟨trimSpaceL s.data⟩

/-- Models strings.Split with separator being the newline character. -/
def splitNl : List Char → List (List Char)
  | [] => [[]]
  | c :: rest =>
    if c = '\n' then [] :: splitNl rest
    else
      match splitNl rest with
      | [] => [[c]]
      | g :: gs => (c :: g) :: gs

/-- The cutset of the strings.TrimLeft call in the fallback branch of
parseSuggestions: minus sign, decimal digits, period and space. -/
def inCutset (c : Char) : Bool :=
  c = '-' || Char.isDigit c || c = '.' || c = ' '

/-- One line of the fallback branch of parseSuggestions:
strings.TrimSpace applied to strings.TrimLeft with the bullet cutset. -/
def stripLine (l : List Char) : List Char :=
  trimSpaceL (l.dropWhile inCutset)

/-- The list built by the fallback loop of parseSuggestions: every line of the
trimmed content, stripped, with empty results skipped, in order. -/
def fallbackMsgs (t : String) : List String :=
  ((splitNl t.data).map (fun l => (⟨stripLine l⟩ : String))).filter (fun s => s != "")

/-- The loop body of normalizeMessages from main.go: the seen map of the Go
code is modeled as the list of strings already emitted. -/
def normGo : List String → List String → List String
  | [], _ => []
  | m :: rest, seen =>
    let t := trimSpace m
    if t = "" ∨ t ∈ seen then normGo rest seen
    else t :: normGo rest (t :: seen)

/-- Models normalizeMessages from main.go: trim each entry, drop empty
entries, drop entries already seen, keep order. -/
def normalizeMessages (msgs : List String) : List String :=
  normGo msgs []

/-- Bridge form of deduplication, carrying the accumulator of already
emitted strings. -/
def dedupSeen : List String → List String → List String
  | [], _ => []
  | x :: xs, seen =>
    if x ∈ seen then dedupSeen xs seen
    else x :: dedupSeen xs (x :: seen)

/-- Written from the words of the specification: collapse exact duplicates to
the first occurrence, preserving the relative order of the survivors. Each
head is kept and its later duplicates are filtered out of the deduplicated
tail. -/
def dedupFirst : List String → List String
  | [] => []
  | x :: xs => x :: (dedupFirst xs).filter (fun y => y != x)

/-- JSON values as decoded by encoding/json; numbers keep their lexeme since
the program never reads a numeric value. -/
inductive Json where
  | null : Json
  | bool : Bool → Json
  | num : String → Json
  | str : String → Json
  | arr : List Json → Json
  | obj : List (String × Json) → Json

/-- The whitespace skipped by the JSON scanner: space, tab, newline, return. -/
def jsonWs (c : Char) : Bool :=
  c = ' ' || c = '\t' || c = '\n' || c = '\r'

/-- Drop leading JSON whitespace. -/
def skipWs (cs : List Char) : List Char :=
  cs.dropWhile jsonWs

/-- Value of a hexadecimal digit character. -/
def hexVal (c : Char) : Option Nat :=
  if '0' ≤ c ∧ c ≤ '9' then some (c.toNat - '0'.toNat)
  else if 'a' ≤ c ∧ c ≤ 'f' then some (c.toNat - 'a'.toNat + 10)
  else if 'A' ≤ c ∧ c ≤ 'F' then some (c.toNat - 'A'.toNat + 10)
  else none

/-- Models getu4 of encoding/json restricted to the four hex digits after a
backslash-u escape: reads exactly four hex digits. -/
def getu4 : List Char → Option (Nat × List Char)
  | a :: b :: c :: d :: rest =>
    match hexVal a, hexVal b, hexVal c, hexVal d with
    | some x, some y, some z, some w =>
      some ((((x * 16 + y) * 16 + z) * 16 + w), rest)
    | _, _, _, _ => none
  | _ => none

def isHighSurrogate (n : Nat) : Bool := 0xD800 ≤ n && n < 0xDC00

def isLowSurrogate (n : Nat) : Bool := 0xDC00 ≤ n && n < 0xE000

def isSurrogateCode (n : Nat) : Bool := 0xD800 ≤ n && n < 0xE000

/-- The unicode replacement character, written by encoding/json for unpaired
surrogate escapes. -/
def fffd : Char := Char.ofNat 0xFFFD

/-- Models the JSON string scanner and unquoter of encoding/json, after the
opening quote: returns the decoded characters and the rest after the closing
quote. Escapes follow unquoteBytes, including surrogate pair combination and
the replacement character for unpaired surrogates; unescaped control
characters and invalid escapes are errors. -/
def parseJStr : Nat → List Char → Option (List Char × List Char)
  | 0, _ => none
  | _ + 1, [] => none
  | f + 1, c :: rest =>
    if c = '"' then some ([], rest)
    else if c = '\\' then
      match rest with
      | [] => none
      | e :: r2 =>
        if e = '"' || e = '\\' || e = '/' then
          (parseJStr f r2).map (fun p => (e :: p.1, p.2))
        else if e = 'b' then (parseJStr f r2).map (fun p => ('\x08' :: p.1, p.2))
        else if e = 'f' then (parseJStr f r2).map (fun p => ('\x0c' :: p.1, p.2))
        else if e = 'n' then (parseJStr f r2).map (fun p => ('\n' :: p.1, p.2))
        else if e = 'r' then (parseJStr f r2).map (fun p => ('\r' :: p.1, p.2))
        else if e = 't' then (parseJStr f r2).map (fun p => ('\t' :: p.1, p.2))
        else if e = 'u' then
          match getu4 r2 with
          | none => none
          | some (n, r3) =>
            if isSurrogateCode n then
              match r3 with
              | '\\' :: 'u' :: r4 =>
                match getu4 r4 with
                | some (m, r5) =>
                  if isHighSurrogate n && isLowSurrogate m then
                    (parseJStr f r5).map
                      (fun p =>
                        (Char.ofNat (0x10000 + (n - 0xD800) * 0x400 + (m - 0xDC00)) :: p.1,
                         p.2))
                  else (parseJStr f r3).map (fun p => (fffd :: p.1, p.2))
                | none => (parseJStr f r3).map (fun p => (fffd :: p.1, p.2))
              | _ => (parseJStr f r3).map (fun p => (fffd :: p.1, p.2))
            else (parseJStr f r3).map (fun p => (Char.ofNat n :: p.1, p.2))
        else none
    else if c.toNat < 0x20 then none
    else (parseJStr f rest).map (fun p => (c :: p.1, p.2))

/-- Integer part of the JSON number grammar: zero, or a nonzero digit
followed by digits. -/
def numInt : List Char → Option (List Char × List Char)
  | [] => none
  | c :: rest =>
    if c = '0' then some (['0'], rest)
    else if Char.isDigit c then
      some (c :: rest.takeWhile Char.isDigit, rest.dropWhile Char.isDigit)
    else none

/-- Optional fraction part of the JSON number grammar. -/
def numFrac : List Char → Option (List Char × List Char)
  | '.' :: rest =>
    let ds := rest.takeWhile Char.isDigit
    if ds = [] then none
    else some ('.' :: ds, rest.dropWhile Char.isDigit)
  | cs => some ([], cs)

/-- Optional exponent part of the JSON number grammar. -/
def numExp : List Char → Option (List Char × List Char)
  | [] => some ([], [])
  | e :: rest =>
    if e = 'e' || e = 'E' then
      match rest with
      | '+' :: r =>
        let ds := r.takeWhile Char.isDigit
        if ds = [] then none
        else some (e :: '+' :: ds, r.dropWhile Char.isDigit)
      | '-' :: r =>
        let ds := r.takeWhile Char.isDigit
        if ds = [] then none
        else some (e :: '-' :: ds, r.dropWhile Char.isDigit)
      | r =>
        let ds := r.takeWhile Char.isDigit
        if ds = [] then none
        else some (e :: ds, r.dropWhile Char.isDigit)
    else some ([], e :: rest)

/-- Models the JSON number grammar checked by the scanner of encoding/json:
optional minus sign, integer part, optional fraction and exponent. Returns
the lexeme and the rest. -/
def parseNumber (cs : List Char) : Option (List Char × List Char) :=
  match cs with
  | '-' :: r =>
    match numInt r with
    | none => none
    | some (i, cs2) =>
      match numFrac cs2 with
      | none => none
      | some (fr, cs3) =>
        match numExp cs3 with
        | none => none
        | some (ex, cs4) => some ('-' :: (i ++ fr ++ ex), cs4)
  | _ =>
    match numInt cs with
    | none => none
    | some (i, cs2) =>
      match numFrac cs2 with
      | none => none
      | some (fr, cs3) =>
        match numExp cs3 with
        | none => none
        | some (ex, cs4) => some (i ++ fr ++ ex, cs4)

/-- Match an exact literal tail such as rue alse ull, returning the rest. -/
def expectLit : List Char → List Char → Option (List Char)
  | [], cs => some cs
  | _ :: _, [] => none
  | l :: ls, c :: cs => if c = l then expectLit ls cs else none

mutual

/-- Recursive-descent JSON value parser modeling the scanner of
encoding/json, with a fuel argument for termination; fuel is chosen large
enough at the top entry point. -/
def parseJVal : Nat → List Char → Option (Json × List Char)
  | 0, _ => none
  | f + 1, cs =>
    match skipWs cs with
    | [] => none
    | c :: rest =>
      if c = '"' then
        (parseJStr f rest).map (fun p => (Json.str ⟨p.1⟩, p.2))
      else if c = '\x7b' then
        match skipWs rest with
        | '\x7d' :: r2 => some (Json.obj [], r2)
        | r1 => (parseJFields f r1).map (fun p => (Json.obj p.1, p.2))
      else if c = '[' then
        match skipWs rest with
        | ']' :: r2 => some (Json.arr [], r2)
        | r1 => (parseJItems f r1).map (fun p => (Json.arr p.1, p.2))
      else if c = 't' then
        (expectLit ['r', 'u', 'e'] rest).map (fun r => (Json.bool true, r))
      else if c = 'f' then
        (expectLit ['a', 'l', 's', 'e'] rest).map (fun r => (Json.bool false, r))
      else if c = 'n' then
        (expectLit ['u', 'l', 'l'] rest).map (fun r => (Json.null, r))
      else
        (parseNumber (c :: rest)).map (fun p => (Json.num ⟨p.1⟩, p.2))

/-- Comma-separated JSON array items up to the closing bracket. -/
def parseJItems : Nat → List Char → Option (List Json × List Char)
  | 0, _ => none
  | f + 1, cs =>
    match parseJVal f cs with
    | none => none
    | some (v, rest) =>
      match skipWs rest with
      | ',' :: r2 => (parseJItems f r2).map (fun p => (v :: p.1, p.2))
      | ']' :: r2 => some ([v], r2)
      | _ => none

/-- Comma-separated JSON object fields up to the closing brace. -/
def parseJFields : Nat → List Char → Option (List (String × Json) × List Char)
  | 0, _ => none
  | f + 1, cs =>
    match skipWs cs with
    | '"' :: r1 =>
      match parseJStr f r1 with
      | none => none
      | some (k, r2) =>
        match skipWs r2 with
        | ':' :: r3 =>
          match parseJVal f r3 with
          | none => none
          | some (v, r4) =>
            match skipWs r4 with
            | ',' :: r5 => (parseJFields f r5).map (fun p => ((⟨k⟩, v) :: p.1, p.2))
            | '\x7d' :: r5 => some ([(⟨k⟩, v)], r5)
            | _ => none
        | _ => none
    | _ => none

end

/-- Models the whole-input contract of json.Unmarshal: one JSON value with
only whitespace after it. The fuel is more than sufficient for any input of
this length. -/
def parseJson (s : String) : Option Json :=
  match parseJVal (4 * s.data.length + 16) s.data with
  | some (j, rest) => if skipWs rest = [] then some j else none
  | none => none

/-- Fold an ASCII uppercase letter to lowercase; models the simple case
folding of strings.EqualFold, which coincides with this on the ASCII
comparisons performed by the program. -/
def foldChar (c : Char) : Char :=
  if 'A' ≤ c ∧ c ≤ 'Z' then Char.ofNat (c.toNat + 32) else c

/-- Models strings.EqualFold on the comparisons the program performs. -/
def equalFold (a b : String) : Bool :=
  a.data.map foldChar == b.data.map foldChar

/-- Decoding of one element of the messages array by encoding/json: a JSON
string decodes to itself, a JSON null leaves the element at its zero value,
anything else is a type error. -/
def decodeStringElem : Json → Option String
  | Json.str s => some s
  | Json.null => some ""
  | _ => none

/-- Decoding of the messages field into a string slice by encoding/json:
null leaves the slice nil, an array decodes elementwise, anything else is a
type error (modeled as none; the Go decoder records the first error and the
success branch of parseSuggestions is not taken). -/
def decodeStringArray : Json → Option (List String)
  | Json.null => some []
  | Json.arr xs => xs.mapM decodeStringElem
  | _ => none

/-- Models json.Unmarshal of a decoded JSON value into suggestionsPayload:
the top level must be an object (or null, a no-op); each field whose key
folds to messages decodes into the slice, later occurrences overwriting
earlier ones; any decode error makes the whole call an error (none). -/
def unmarshalPayload (j : Json) : Option (List String) :=
  match j with
  | Json.null => some []
  | Json.obj fields =>
    fields.foldl
      (fun acc kv =>
        match acc with
        | none => none
        | some cur =>
          if equalFold kv.1 "messages" then decodeStringArray kv.2
          else some cur)
      (some [])
  | _ => none

/-- The JSON attempt of parseSuggestions: some ms exactly when
json.Unmarshal succeeds on the trimmed content and the decoded messages
slice is nonempty, which is the guard of the success branch in main.go. -/
def jsonMessages (t : String) : Option (List String) :=
  match parseJson t with
  | none => none
  | some j =>
    match unmarshalPayload j with
    | none => none
    | some ms => if 0 < ms.length then some ms else none

/-- Models parseSuggestions from main.go. -/
def parseSuggestions (content : String) : Except String (List String) :=
  if trimSpace content = "" then Except.error "empty response from model"
  else
    match jsonMessages (trimSpace content) with
    | some ms => Except.ok (normalizeMessages ms)
    | none =>
      if fallbackMsgs (trimSpace content) = [] then
        Except.error "could not parse suggestions"
      else Except.ok (normalizeMessages (fallbackMsgs (trimSpace content)))

/-- Models the clamping of the count flag in main: below one becomes one,
above three becomes three. -/
def clampCount (c : Int) : Int :=
  let c1 := if c < 1 then 1 else c
  if c1 > 3 then 3 else c1

/-- Models the pure tail of requestSuggestions from main.go: parse the model
response content, then truncate the result to at most n entries. -/
def requestSuggestions (n : Int) (content : String) : Except String (List String) :=
  (parseSuggestions content).map
    (fun msgs => if n < (msgs.length : Int) then msgs.take n.toNat else msgs)

/-- Models fmt.Sscanf with a single decimal verb as used by parseChoice: skip
leading spaces, read an optional sign and a nonempty run of decimal digits,
ignore anything after them. An overflowing value is an error in Go; both
paths are errors in parseChoice, which is the only caller. -/
def digitsVal (cs : List Char) : Option Nat :=
  match cs.takeWhile Char.isDigit with
  | [] => none
  | ds => some (ds.foldl (fun a c => a * 10 + (c.toNat - '0'.toNat)) 0)

/-- Sign handling of the decimal verb of fmt.Sscanf. -/
def sscanfInt (s : String) : Option Int :=
  match s.data.dropWhile (fun c => goIsSpace c && !(c = '\n')) with
  | '-' :: r => (digitsVal r).map (fun n => -(n : Int))
  | '+' :: r => (digitsVal r).map (fun n => (n : Int))
  | r => (digitsVal r).map (fun n => (n : Int))

/-- Models parseChoice from main.go. -/
def parseChoice (s : String) (mx : Int) : Except String Int :=
  if s = "" then Except.error "empty"
  else
    match sscanfInt s with
    | none => Except.error "scan"
    | some n =>
      if n < 1 || mx < n then Except.error "out of range"
      else Except.ok (n - 1)

/-- A read error from the modeled standard input: end of input, or a failure
with a message. -/
inductive RErr where
  | eofMark : RErr
  | failMsg : String → RErr
deriving DecidableEq

/-- The error guard of the read loops: an error other than end of input. -/
def isFatalErr : Option RErr → Bool
  | some (RErr.failMsg _) => true
  | _ => false

/-- Models the loop of promptEdit from main.go over a finite list of read
events; none means the loop is still waiting for more input. -/
def promptEditLoop : List (String × Option RErr) → Option (Except String String)
  | [] => none
  | (line, e) :: rest =>
    match e with
    | some (RErr.failMsg m) => some (Except.error ("read input: " ++ m))
    | _ =>
      if trimSpace line = "" then promptEditLoop rest
      else some (Except.ok (trimSpace line))

/-- Models the loop of chooseMessage from main.go over a finite list of read
events; the out-of-range indexing that Go would panic on is modeled as a
distinguished error value. -/
def chooseLoop (msgs : List String) : List (String × Option RErr) → Option (Except String String)
  | [] => none
  | (line, e) :: rest =>
    match e with
    | some (RErr.failMsg m) => some (Except.error ("read input: " ++ m))
    | _ =>
      if equalFold (trimSpace line) "e" then promptEditLoop rest
      else if trimSpace line = "" then chooseLoop msgs rest
      else
        match parseChoice (trimSpace line) (msgs.length : Int) with
        | Except.error _ => chooseLoop msgs rest
        | Except.ok idx =>
          match msgs[idx.toNat]? with
          | some m => some (Except.ok m)
          | none => some (Except.error "index out of range")

/-- Written from the words of the specification: the trimmed text is one
decimal integer token, an optional sign followed only by digits. -/
def isIntegerToken (s : String) : Bool :=
  match s.data with
  | '-' :: r => !r.isEmpty && r.all Char.isDigit
  | '+' :: r => !r.isEmpty && r.all Char.isDigit
  | r => !r.isEmpty && r.all Char.isDigit

/-! Basic lemmas about dropWhile and the trim functions. -/

theorem dropWhile_head_false {α} (p : α → Bool) :
    ∀ (l : List α) (c : α) (r : List α), l.dropWhile p = c :: r → p c = false := by
  intro l
  induction l with
  | nil => intro c r h; simp [List.dropWhile] at h
  | cons a l ih =>
    intro c r h
    rw [List.dropWhile_cons] at h
    by_cases ha : p a
    · rw [if_pos ha] at h; exact ih c r h
    · rw [if_neg ha] at h
      obtain ⟨rfl, -⟩ := List.cons.inj h
      exact Bool.eq_false_iff.mpr ha

theorem dropWhile_self_of_head {α} (p : α → Bool) (c : α) (r : List α)
    (h : p c = false) : (c :: r).dropWhile p = c :: r := by
  rw [List.dropWhile_cons, if_neg (by simp [h])]

theorem dropWhile_idem {α} (p : α → Bool) (l : List α) :
    (l.dropWhile p).dropWhile p = l.dropWhile p := by
  cases h : l.dropWhile p with
  | nil => rfl
  | cons c r => exact dropWhile_self_of_head p c r (dropWhile_head_false p l c r h)

theorem trimRightL_append (l : List Char) :
    l = trimRightL l ++ (l.reverse.takeWhile goIsSpace).reverse := by
  unfold trimRightL
  rw [← List.reverse_append, List.takeWhile_append_dropWhile, List.reverse_reverse]

theorem trimSpaceL_head (l : List Char) (c : Char) (r : List Char)
    (h : trimSpaceL l = c :: r) : goIsSpace c = false := by
  unfold trimSpaceL at h
  have h2 := trimRightL_append (l.dropWhile goIsSpace)
  rw [h, List.cons_append] at h2
  exact dropWhile_head_false goIsSpace l c _ h2

theorem trimSpaceL_idem (l : List Char) : trimSpaceL (trimSpaceL l) = trimSpaceL l := by
  cases h : trimSpaceL l with
  | nil => rfl
  | cons c r =>
    have hc : goIsSpace c = false := trimSpaceL_head l c r h
    have hrev : (c :: r).reverse = (l.dropWhile goIsSpace).reverse.dropWhile goIsSpace := by
      rw [← h]
      unfold trimSpaceL trimRightL
      rw [List.reverse_reverse]
    unfold trimSpaceL trimRightL
    rw [dropWhile_self_of_head goIsSpace c r hc, hrev, dropWhile_idem, ← hrev,
      List.reverse_reverse]

theorem trimSpaceL_eq_nil (l : List Char) (h : ∀ c ∈ l, goIsSpace c = true) :
    trimSpaceL l = [] := by
  unfold trimSpaceL trimRightL
  have h1 : l.dropWhile goIsSpace = [] := List.dropWhile_eq_nil_iff.mpr (by simpa using h)
  rw [h1]
  rfl

theorem trimSpaceL_ne_nil (c : Char) (l : List Char) (h : goIsSpace c = false) :
    trimSpaceL (c :: l) ≠ [] := by
  unfold trimSpaceL trimRightL
  rw [dropWhile_self_of_head goIsSpace c l h]
  intro hnil
  rw [List.reverse_eq_nil_iff, List.dropWhile_eq_nil_iff] at hnil
  have := hnil c (by simp)
  simp [h] at this

theorem mk_eq_empty_iff (l : List Char) : (⟨l⟩ : String) = "" ↔ l = [] := by
  constructor
  · intro h
    have := congrArg String.data h
    simpa using this
  · intro h; rw [h]

theorem trimSpace_idem (s : String) : trimSpace (trimSpace s) = trimSpace s := by
  unfold trimSpace
  exact congrArg String.mk (trimSpaceL_idem s.data)

theorem trimSpace_data (s : String) : (trimSpace s).data = trimSpaceL s.data := rfl

/-! Lemmas about normalizeMessages. -/

theorem normGo_mem :
    ∀ (l seen : List String) (x : String), x ∈ normGo l seen →
      trimSpace x = x ∧ x ≠ "" ∧ x ∉ seen := by
  intro l
  induction l with
  | nil => intro seen x hx; simp [normGo] at hx
  | cons m rest ih =>
    intro seen x hx
    by_cases hg : trimSpace m = "" ∨ trimSpace m ∈ seen
    · rw [show normGo (m :: rest) seen = normGo rest seen by simp [normGo, hg]] at hx
      exact ih seen x hx
    · rw [show normGo (m :: rest) seen = trimSpace m :: normGo rest (trimSpace m :: seen) by
        simp [normGo, hg]] at hx
      push_neg at hg
      rcases List.mem_cons.mp hx with h1 | h2
    
      · subst h1
        exact ⟨trimSpace_idem m, hg.1, hg.2⟩
      · have h3 := ih _ x h2
        exact ⟨h3.1, h3.2.1, fun hs => h3.2.2 (List.mem_cons_of_mem _ hs)⟩

theorem normGo_nodup : ∀ (l seen : List String), (normGo l seen).Nodup := by
  intro l
  induction l with
  | nil => intro seen; simp [normGo]
  | cons m rest ih =>
    intro seen
    by_cases hg : trimSpace m = "" ∨ trimSpace m ∈ seen
    · rw [show normGo (m :: rest) seen = normGo rest seen by simp [normGo, hg]]
      exact ih seen
    · rw [show normGo (m :: rest) seen = trimSpace m :: normGo rest (trimSpace m :: seen) by
        simp [normGo, hg]]
      refine List.nodup_cons.mpr ⟨fun hmem => ?_, ih _⟩
      exact (normGo_mem _ _ _ hmem).2.2 (List.mem_cons_self _ _)

theorem normGo_fixed :
    ∀ (l seen : List String), (∀ x ∈ l, trimSpace x = x ∧ x ≠ "" ∧ x ∉ seen) →
      l.Nodup → normGo l seen = l := by
  intro l
  induction l with
  | nil => intro seen _ _; rfl
  | cons m rest ih =>
    intro seen hall hnd
    have hm := hall m (List.mem_cons_self _ _)
    have hg : ¬(trimSpace m = "" ∨ trimSpace m ∈ seen) := by
      rw [hm.1]
      push_neg
      exact ⟨hm.2.1, hm.2.2⟩
    rw [show normGo (m :: rest) seen = trimSpace m :: normGo rest (trimSpace m :: seen) by
      simp [normGo, hg]]
    rw [hm.1]
    have hrest : ∀ x ∈ rest, trimSpace x = x ∧ x ≠ "" ∧ x ∉ (m :: seen) := by
      intro x hx
      have h1 := hall x (List.mem_cons_of_mem _ hx)
      refine ⟨h1.1, h1.2.1, ?_⟩
      intro hmem
      rcases List.mem_cons.mp hmem with h2 | h2
      · subst h2; exact (List.nodup_cons.mp hnd).1 hx
      · exact h1.2.2 h2
    rw [ih (m :: seen) hrest (List.nodup_cons.mp hnd).2]

theorem normGo_eq_nil_all :
    ∀ (l seen : List String), normGo l seen = [] →
      ∀ x ∈ l, trimSpace x = "" ∨ trimSpace x ∈ seen := by
  intro l
  induction l with
  | nil => intro seen _ x hx; simp at hx
  | cons m rest ih =>
    intro seen h x hx
    by_cases hg : trimSpace m = "" ∨ trimSpace m ∈ seen
    · rw [show normGo (m :: rest) seen = normGo rest seen by simp [normGo, hg]] at h
      rcases List.mem_cons.mp hx with h1 | h1
      · subst h1; exact hg
      · exact ih seen h x h1
    · rw [show normGo (m :: rest) seen = trimSpace m :: normGo rest (trimSpace m :: seen) by
        simp [normGo, hg]] at h
      exact absurd h (List.cons_ne_nil _ _)

theorem normGo_eq_dedupSeen :
    ∀ (l seen : List String),
      normGo l seen = dedupSeen ((l.map trimSpace).filter (fun s => s != "")) seen := by
  intro l
  induction l with
  | nil => intro seen; rfl
  | cons m rest ih =>
    intro seen
    rw [List.map_cons, List.filter_cons]
    by_cases he : trimSpace m = ""
    · rw [if_neg (by simp [he])]
      rw [show normGo (m :: rest) seen = normGo rest seen by simp [normGo, he]]
      exact ih seen
    · rw [if_pos (by simp [he])]
      by_cases hs : trimSpace m ∈ seen
      · rw [show normGo (m :: rest) seen = normGo rest seen by simp [normGo, hs]]
        rw [show dedupSeen (trimSpace m :: (rest.map trimSpace).filter (fun s => s != "")) seen
            = dedupSeen ((rest.map trimSpace).filter (fun s => s != "")) seen by
          simp [dedupSeen, hs]]
        exact ih seen
      · have hg : ¬(trimSpace m = "" ∨ trimSpace m ∈ seen) := by push_neg; exact ⟨he, hs⟩
        rw [show normGo (m :: rest) seen = trimSpace m :: normGo rest (trimSpace m :: seen) by
          simp [normGo, hg]]
        rw [show dedupSeen (trimSpace m :: (rest.map trimSpace).filter (fun s => s != "")) seen
            = trimSpace m ::
              dedupSeen ((rest.map trimSpace).filter (fun s => s != "")) (trimSpace m :: seen) by
          simp [dedupSeen, hs]]
        rw [ih (trimSpace m :: seen)]

theorem filter_comm_strings (p q : String → Bool) (l : List String) :
    (l.filter p).filter q = (l.filter q).filter p := by
  rw [List.filter_filter, List.filter_filter]
  apply List.filter_congr
  intro a _
  rw [Bool.and_comm]

theorem dedupFirst_filter (x : String) :
    ∀ l : List String,
      dedupFirst (l.filter (fun y => y != x))
        = (dedupFirst l).filter (fun y => y != x) := by
  intro l
  induction l with
  | nil => rfl
  | cons y ys ih =>
    rw [List.filter_cons]
    by_cases hyx : (y != x) = true
    · rw [if_pos hyx]
      rw [show dedupFirst (y :: ys.filter (fun z => z != x))
          = y :: (dedupFirst (ys.filter (fun z => z != x))).filter (fun z => z != y) from rfl]
      rw [ih]
      rw [show dedupFirst (y :: ys) = y :: (dedupFirst ys).filter (fun z => z != y) from rfl]
      rw [List.filter_cons, if_pos hyx]
      congr 1
      exact filter_comm_strings _ _ _
    · rw [if_neg hyx]
      have hyx2 : y = x := by simpa using hyx
      rw [ih]
      rw [show dedupFirst (y :: ys) = y :: (dedupFirst ys).filter (fun z => z != y) from rfl]
      rw [List.filter_cons, if_neg hyx]
      subst hyx2
      rw [List.filter_filter]
      symm
      apply List.filter_congr
      intro a _
      rw [Bool.and_self]

theorem dedupSeen_eq_dedupFirst :
    ∀ (xs seen : List String),
      dedupSeen xs seen = dedupFirst (xs.filter (fun x => !seen.contains x)) := by
  intro xs
  induction xs with
  | nil => intro seen; rfl
  | cons x r ih =>
    intro seen
    rw [List.filter_cons]
    by_cases hx : x ∈ seen
    · rw [if_neg (by simp [hx])]
      rw [show dedupSeen (x :: r) seen = dedupSeen r seen by simp [dedupSeen, hx]]
      exact ih seen
    · rw [if_pos (by simp [hx])]
      rw [show dedupSeen (x :: r) seen = x :: dedupSeen r (x :: seen) by
        simp [dedupSeen, hx]]
      rw [ih (x :: seen)]
      rw [show dedupFirst (x :: r.filter (fun y => !seen.contains y))
          = x :: (dedupFirst (r.filter (fun y => !seen.contains y))).filter (fun y => y != x) from
        rfl]
      rw [← dedupFirst_filter]
      congr 2
      rw [List.filter_filter]
      apply List.filter_congr
      intro a _
      simp [Bool.not_or, Bool.and_comm, bne, Bool.beq_eq_decide_eq]

theorem normalize_eq_dedupFirst (ms : List String) :
    normalizeMessages ms = dedupFirst ((ms.map trimSpace).filter (fun s => s != "")) := by
  unfold normalizeMessages
  rw [normGo_eq_dedupSeen, dedupSeen_eq_dedupFirst]
  congr 1
  apply List.filter_eq_self.mpr
  intro a _
  simp

/-! Unfolding lemmas for parseSuggestions and facts about the fallback list. -/

theorem parseSuggestions_json_eq (content : String) (ms : List String)
    (ht : trimSpace content ≠ "") (h : jsonMessages (trimSpace content) = some ms) :
    parseSuggestions content = Except.ok (normalizeMessages ms) := by
  unfold parseSuggestions
  rw [if_neg ht, h]

theorem parseSuggestions_fallback_eq (content : String)
    (ht : trimSpace content ≠ "") (h : jsonMessages (trimSpace content) = none)
    (hf : fallbackMsgs (trimSpace content) ≠ []) :
    parseSuggestions content
      = Except.ok (normalizeMessages (fallbackMsgs (trimSpace content))) := by
  unfold parseSuggestions
  rw [if_neg ht, h, if_neg hf]

theorem parseSuggestions_fallback_err (content : String)
    (ht : trimSpace content ≠ "") (h : jsonMessages (trimSpace content) = none)
    (hf : fallbackMsgs (trimSpace content) = []) :
    parseSuggestions content = Except.error "could not parse suggestions" := by
  unfold parseSuggestions
  rw [if_neg ht, h, if_pos hf]

theorem fallbackMsgs_mem (t : String) (x : String) (hx : x ∈ fallbackMsgs t) :
    trimSpace x = x ∧ x ≠ "" := by
  unfold fallbackMsgs at hx
  obtain ⟨hm, hp⟩ := List.mem_filter.mp hx
  obtain ⟨l, -, rfl⟩ := List.mem_map.mp hm
  constructor
  · show (⟨trimSpaceL (stripLine l)⟩ : String) = ⟨stripLine l⟩
    unfold stripLine
    rw [trimSpaceL_idem]
  · simpa using hp

theorem fallbackMsgs_eq_nil_of_norm (t : String)
    (h : normalizeMessages (fallbackMsgs t) = []) : fallbackMsgs t = [] := by
  rw [List.eq_nil_iff_forall_not_mem]
  intro x hx
  have h1 := fallbackMsgs_mem t x hx
  have h2 := normGo_eq_nil_all (fallbackMsgs t) [] h x hx
  rcases h2 with h2 | h2
  · rw [h1.1] at h2
    exact h1.2 h2
  · simp at h2

/-- C5: normalizeMessages is idempotent: applying it to an already-normalized
list returns the list unchanged. -/
theorem normalizeMessages_idempotent (msgs : List String) :
    normalizeMessages (normalizeMessages msgs) = normalizeMessages msgs := by
  unfold normalizeMessages
  apply normGo_fixed
  · intro x hx
    have h := normGo_mem _ _ _ hx
    exact ⟨h.1, h.2.1, List.not_mem_nil x⟩
  · exact normGo_nodup _ _

/-- C3: an input that is empty or consists only of whitespace makes
parseSuggestions fail with the empty-response error. -/
theorem parseSuggestions_whitespace_error (content : String)
    (h : ∀ c ∈ content.data, goIsSpace c = true) :
    parseSuggestions content = Except.error "empty response from model" := by
  have ht : trimSpace content = "" :=
    (mk_eq_empty_iff _).mpr (trimSpaceL_eq_nil _ h)
  unfold parseSuggestions
  rw [if_pos ht]

/-- Witness for C3 at a concrete whitespace-only input. -/
theorem parseSuggestions_whitespace_error_wit :
    parseSuggestions " \t\n " = Except.error "empty response from model" :=
  parseSuggestions_whitespace_error " \t\n " (by decide)

/-- C1: when the trimmed input is a well-formed JSON object with a nonempty
messages array, parseSuggestions succeeds and returns exactly those entries
trimmed, with empty entries dropped and exact duplicates collapsed to the
first occurrence, preserving relative order. -/
theorem parseSuggestions_json_wellformed (content : String) (ms : List String)
    (h : jsonMessages (trimSpace content) = some ms) :
    parseSuggestions content
      = Except.ok (dedupFirst ((ms.map trimSpace).filter (fun s => s != ""))) := by
  have ht : trimSpace content ≠ "" := by
    intro he
    rw [he] at h
    have h0 : jsonMessages "" = none := rfl
    rw [h0] at h
    exact Option.noConfusion h
  rw [parseSuggestions_json_eq content ms ht h, normalize_eq_dedupFirst]

/-- Witness for C1 at a concrete JSON input with duplicates and blanks. -/
theorem parseSuggestions_json_wellformed_wit :
    parseSuggestions "\x7b\"messages\":[\"a\", \" a \", \"b\", \"\"]\x7d"
      = Except.ok ["a", "b"] :=
  (parseSuggestions_json_wellformed "\x7b\"messages\":[\"a\", \" a \", \"b\", \"\"]\x7d"
    ["a", " a ", "b", ""] rfl).trans rfl

/-- C4 counterexample: on the duplicate-line input the parser does not keep
all non-empty stripped lines; the duplicate is collapsed. -/
theorem parseSuggestions_fallback_cex :
    parseSuggestions "a\na" = Except.ok ["a"]
      ∧ fallbackMsgs (trimSpace "a\na") = ["a", "a"]
      ∧ (Except.ok ["a"] : Except String (List String)) ≠ Except.ok ["a", "a"] := by
  refine ⟨rfl, rfl, ?_⟩
  intro h
  simp at h

/-- C4 (amended): for an input with non-blank trimmed text that the JSON
attempt does not parse, parseSuggestions returns the non-empty stripped
lines in order, with exact duplicates collapsed to the first occurrence. -/
theorem parseSuggestions_fallback_strip (content : String)
    (ht : trimSpace content ≠ "")
    (hj : jsonMessages (trimSpace content) = none)
    (hf : fallbackMsgs (trimSpace content) ≠ []) :
    parseSuggestions content
      = Except.ok (dedupFirst (fallbackMsgs (trimSpace content))) := by
  rw [parseSuggestions_fallback_eq content ht hj hf, normalize_eq_dedupFirst]
  have hmap : (fallbackMsgs (trimSpace content)).map trimSpace
      = fallbackMsgs (trimSpace content) := by
    rw [show (fallbackMsgs (trimSpace content)).map trimSpace
        = (fallbackMsgs (trimSpace content)).map id from
      List.map_congr_left (fun a ha => (fallbackMsgs_mem _ a ha).1)]
    exact List.map_id _
  have hfil : ((fallbackMsgs (trimSpace content)).map trimSpace).filter (fun s => s != "")
      = fallbackMsgs (trimSpace content) := by
    rw [hmap]
    exact List.filter_eq_self.mpr (fun a ha => by simpa using (fallbackMsgs_mem _ a ha).2)
  rw [hfil]

/-- Witness for C4 at the numbered-list input of the specification. -/
theorem parseSuggestions_fallback_strip_wit :
    parseSuggestions "1. add x\n2. fix y" = Except.ok ["add x", "fix y"] :=
  (parseSuggestions_fallback_strip "1. add x\n2. fix y" (by decide) rfl
    (by decide)).trans rfl

theorem clampCount_eq (c : Int) : clampCount c = min 3 (max 1 c) := by
  simp only [clampCount]
  split_ifs <;> omega

theorem one_le_clampCount (c : Int) : 1 ≤ clampCount c := by
  simp only [clampCount]
  split_ifs <;> omega

/-- C6: with the count flag clamped as in main, the suggestion list produced
by requestSuggestions has length at most min 3 (max 1 c). -/
theorem requestSuggestions_count_capped (c : Int) (content : String)
    (msgs : List String)
    (h : requestSuggestions (clampCount c) content = Except.ok msgs) :
    (msgs.length : Int) ≤ min 3 (max 1 c) := by
  rw [← clampCount_eq]
  unfold requestSuggestions at h
  cases hp : parseSuggestions content with
  | error e => rw [hp] at h; simp [Except.map] at h
  | ok ms =>
    rw [hp] at h
    simp only [Except.map, Except.ok.injEq] at h
    subst h
    have h1 := one_le_clampCount c
    by_cases hlt : clampCount c < (ms.length : Int)
    · rw [if_pos hlt, List.length_take]
      omega
    · rw [if_neg hlt]
      omega

/-- Witness for C6 at count five and a four-line response. -/
theorem requestSuggestions_count_capped_wit :
    requestSuggestions (clampCount 5) "x\ny\nz\nw" = Except.ok ["x", "y", "z"]
      ∧ ((["x", "y", "z"] : List String).length : Int) ≤ min 3 (max 1 5) :=
  ⟨rfl, requestSuggestions_count_capped 5 "x\ny\nz\nw" ["x", "y", "z"] rfl⟩

/-! Lemmas about the interactive selector. -/

theorem toNat_ofNat_valid (n : Nat) (h : n.isValidChar) : (Char.ofNat n).toNat = n := by
  unfold Char.ofNat
  rw [dif_pos h]
  rfl

theorem foldChar_eq_e (c : Char) (h : foldChar c = 'e') : c = 'e' ∨ c = 'E' := by
  unfold foldChar at h
  by_cases hc : 'A' ≤ c ∧ c ≤ 'Z'
  · right
    rw [if_pos hc] at h
    have h2 : c.toNat ≤ 90 := by
      have h3 := hc.2
      rw [Char.le_def, UInt32.le_def, BitVec.le_def] at h3
      simpa using h3
    have hv : (c.toNat + 32).isValidChar := Or.inl (by omega)
    have h3 := congrArg Char.toNat h
    rw [toNat_ofNat_valid _ hv] at h3
    have h4 : c.toNat = 69 := by
      have h5 : ('e' : Char).toNat = 101 := rfl
      omega
    have h6 : c.val = ('E' : Char).val :=
      UInt32.toNat.inj (by simpa using h4)
    exact Char.ext h6
  · left
    rw [if_neg hc] at h
    exact h

theorem equalFold_e_cases (l : String) (h : equalFold l "e" = true) :
    l = "e" ∨ l = "E" := by
  unfold equalFold at h
  have h2 : l.data.map foldChar = "e".data.map foldChar := eq_of_beq h
  have h3 : "e".data.map foldChar = ['e'] := rfl
  rw [h3] at h2
  have hlen : l.data.length = 1 := by
    have h5 := congrArg List.length h2
    simpa using h5
  obtain ⟨c, hc⟩ := List.length_eq_one.mp hlen
  rw [hc] at h2
  simp only [List.map_cons, List.map_nil, List.cons.injEq, and_true] at h2
  rcases foldChar_eq_e c h2 with h5 | h5
  · left
    exact String.ext (by rw [hc, h5])
  · right
    exact String.ext (by rw [hc, h5])

theorem parseChoice_ok_bounds (s : String) (mx idx : Int)
    (h : parseChoice s mx = Except.ok idx) : 0 ≤ idx ∧ idx < mx := by
  unfold parseChoice at h
  split at h
  · exact Except.noConfusion h
  · split at h
    · exact Except.noConfusion h
    · split at h
      · exact Except.noConfusion h
      · rename_i hr
        injection h with h2
        simp only [Bool.or_eq_true, decide_eq_true_eq, not_or, not_lt] at hr
        omega

theorem read_input_ne (m : String) : "read input: " ++ m ≠ "index out of range" := by
  intro h
  have h2 := congrArg String.data h
  have h3 : ("read input: " ++ m).data = 'r' :: ("ead input: ".data ++ m.data) := rfl
  have h4 : ("index out of range" : String).data = 'i' :: "ndex out of range".data := rfl
  rw [h3, h4] at h2
  injection h2 with h5 _
  exact absurd h5 (by decide)

theorem promptEditLoop_cons_fail (line m : String) (rest : List (String × Option RErr)) :
    promptEditLoop ((line, some (RErr.failMsg m)) :: rest)
      = some (Except.error ("read input: " ++ m)) := rfl

theorem promptEditLoop_cons_ok (line : String) (er : Option RErr)
    (rest : List (String × Option RErr)) (he : isFatalErr er = false) :
    promptEditLoop ((line, er) :: rest)
      = if trimSpace line = "" then promptEditLoop rest
        else some (Except.ok (trimSpace line)) := by
  match er with
  | none => rfl
  | some RErr.eofMark => rfl
  | some (RErr.failMsg m) => simp [isFatalErr] at he

theorem chooseLoop_cons_fail (msgs : List String) (line m : String)
    (rest : List (String × Option RErr)) :
    chooseLoop msgs ((line, some (RErr.failMsg m)) :: rest)
      = some (Except.error ("read input: " ++ m)) := rfl

theorem chooseLoop_cons_ok (msgs : List String) (line : String) (er : Option RErr)
    (rest : List (String × Option RErr)) (he : isFatalErr er = false) :
    chooseLoop msgs ((line, er) :: rest)
      = if equalFold (trimSpace line) "e" then promptEditLoop rest
        else if trimSpace line = "" then chooseLoop msgs rest
        else
          match parseChoice (trimSpace line) (msgs.length : Int) with
          | Except.error _ => chooseLoop msgs rest
          | Except.ok idx =>
            match msgs[idx.toNat]? with
            | some m => some (Except.ok m)
            | none => some (Except.error "index out of range") := by
  match er with
  | none => rfl
  | some RErr.eofMark => rfl
  | some (RErr.failMsg m) => simp [isFatalErr] at he

theorem isFatalErr_true (er : Option RErr) (h : isFatalErr er = true) :
    ∃ m, er = some (RErr.failMsg m) := by
  match er with
  | none => simp [isFatalErr] at h
  | some RErr.eofMark => simp [isFatalErr] at h
  | some (RErr.failMsg m) => exact ⟨m, rfl⟩

theorem parseChoice_ok_sscanf (s : String) (mx idx : Int)
    (h : parseChoice s mx = Except.ok idx) :
    ∃ n, sscanfInt s = some n ∧ 1 ≤ n ∧ n ≤ mx ∧ idx = n - 1 := by
  unfold parseChoice at h
  split at h
  · exact Except.noConfusion h
  · split at h
    · exact Except.noConfusion h
    · rename_i n hsc
      split at h
      · exact Except.noConfusion h
      · rename_i hr
        injection h with h2
        simp only [Bool.or_eq_true, decide_eq_true_eq, not_or, not_lt] at hr
        exact ⟨n, hsc, hr.1, hr.2, h2.symm⟩

theorem parseChoice_ok_of_sscanf (s : String) (mx n : Int)
    (hs : s ≠ "") (hsc : sscanfInt s = some n) (h1 : 1 ≤ n) (h2 : n ≤ mx) :
    parseChoice s mx = Except.ok (n - 1) := by
  unfold parseChoice
  rw [if_neg hs, hsc]
  show (if (decide (n < 1) || decide (mx < n)) = true then Except.error "out of range"
      else Except.ok (n - 1)) = Except.ok (n - 1)
  rw [if_neg (by simp only [Bool.or_eq_true, decide_eq_true_eq]; omega)]

theorem promptEditLoop_no_oob :
    ∀ evs : List (String × Option RErr),
      promptEditLoop evs ≠ some (Except.error "index out of range") := by
  intro evs
  induction evs with
  | nil => simp [promptEditLoop]
  | cons ev rest ih =>
    obtain ⟨line, er⟩ := ev
    by_cases hf : isFatalErr er = true
    · obtain ⟨m, rfl⟩ := isFatalErr_true er hf
      rw [promptEditLoop_cons_fail]
      intro h
      injection h with h2
      injection h2 with h3
      exact read_input_ne m h3
    · rw [promptEditLoop_cons_ok line er rest (by simpa using hf)]
      split
      · exact ih
      · simp

theorem chooseLoop_no_oob :
    ∀ (msgs : List String) (evs : List (String × Option RErr)),
      chooseLoop msgs evs ≠ some (Except.error "index out of range") := by
  intro msgs evs
  induction evs with
  | nil => simp [chooseLoop]
  | cons ev rest ih =>
    obtain ⟨line, er⟩ := ev
    by_cases hf : isFatalErr er = true
    · obtain ⟨m, rfl⟩ := isFatalErr_true er hf
      rw [chooseLoop_cons_fail]
      intro h
      injection h with h2
      injection h2 with h3
      exact read_input_ne m h3
    · rw [chooseLoop_cons_ok msgs line er rest (by simpa using hf)]
      split
      · exact promptEditLoop_no_oob rest
      · split
        · exact ih
        · split
          · exact ih
          · rename_i idx hpc
            have hb := parseChoice_ok_bounds _ _ _ hpc
            have hlt : idx.toNat < msgs.length := by omega
            rw [List.getElem?_eq_getElem hlt]
            simp

theorem promptEditLoop_no_error :
    ∀ evs : List (String × Option RErr),
      (∀ ev ∈ evs, isFatalErr ev.2 = false) →
      ∀ e, promptEditLoop evs ≠ some (Except.error e) := by
  intro evs
  induction evs with
  | nil => intro _ e; simp [promptEditLoop]
  | cons ev rest ih =>
    intro hall e
    obtain ⟨line, er⟩ := ev
    have hf : isFatalErr er = false := hall (line, er) (List.mem_cons_self _ _)
    rw [promptEditLoop_cons_ok line er rest hf]
    have hrest : ∀ ev ∈ rest, isFatalErr ev.2 = false :=
      fun x hx => hall x (List.mem_cons_of_mem _ hx)
    split
    · exact ih hrest e
    · simp

theorem chooseLoop_no_error (msgs : List String) :
    ∀ evs : List (String × Option RErr),
      (∀ ev ∈ evs, isFatalErr ev.2 = false) →
      ∀ e, chooseLoop msgs evs ≠ some (Except.error e) := by
  intro evs
  induction evs with
  | nil => intro _ e; simp [chooseLoop]
  | cons ev rest ih =>
    intro hall e
    obtain ⟨line, er⟩ := ev
    have hf : isFatalErr er = false := hall (line, er) (List.mem_cons_self _ _)
    have hrest : ∀ ev ∈ rest, isFatalErr ev.2 = false :=
      fun x hx => hall x (List.mem_cons_of_mem _ hx)
    rw [chooseLoop_cons_ok msgs line er rest hf]
    split
    · exact promptEditLoop_no_error rest hrest e
    · split
      · exact ih hrest e
      · split
        · exact ih hrest e
        · rename_i idx hpc
          have hb := parseChoice_ok_bounds _ _ _ hpc
          have hlt : idx.toNat < msgs.length := by omega
          rw [List.getElem?_eq_getElem hlt]
          simp

/-- C9: end of input is not itself an error: over any event list containing
no standard-input failure other than end of input, neither chooseMessage nor
edit mode ever returns an error result. -/
theorem chooseMessage_eof_not_error (msgs : List String)
    (evs : List (String × Option RErr))
    (hall : ∀ ev ∈ evs, isFatalErr ev.2 = false) :
    (∀ e, chooseLoop msgs evs ≠ some (Except.error e))
      ∧ (∀ e, promptEditLoop evs ≠ some (Except.error e)) :=
  ⟨chooseLoop_no_error msgs evs hall, promptEditLoop_no_error evs hall⟩

/-- Witness for C9: a read that hits end of input yields no error result. -/
theorem chooseMessage_eof_not_error_wit :
    chooseLoop ["a"] [("", some RErr.eofMark)] ≠ some (Except.error "boom") :=
  (chooseMessage_eof_not_error ["a"] [("", some RErr.eofMark)] (by decide)).1 "boom"

/-- C10: an index returned by parseChoice always lies in the interval from
zero to max minus one, and hence the indexing done by chooseMessage after a
successful parseChoice is always in bounds: the out-of-range outcome is
unreachable. -/
theorem parseChoice_in_bounds :
    (∀ (s : String) (mx idx : Int), parseChoice s mx = Except.ok idx →
      0 ≤ idx ∧ idx < mx)
      ∧ ∀ (msgs : List String) (evs : List (String × Option RErr)),
          chooseLoop msgs evs ≠ some (Except.error "index out of range") :=
  ⟨parseChoice_ok_bounds, chooseLoop_no_oob⟩

/-- Witness for C10 at the input line 2 against three suggestions. -/
theorem parseChoice_in_bounds_wit :
    ((0 : Int) ≤ 1 ∧ (1 : Int) < 3)
      ∧ chooseLoop ["a", "b", "c"] [("2\n", none)]
          ≠ some (Except.error "index out of range") :=
  ⟨parseChoice_in_bounds.1 "2" 3 1 rfl, parseChoice_in_bounds.2 ["a", "b", "c"] _⟩

/-- C7 (amended): a line whose trimmed text starts with an optionally signed
run of decimal digits read as n with n between one and the suggestion count
selects the suggestion at one-indexed position n, even if unrelated trailing
characters follow the digits; every other non-empty line that is not an edit
request is rejected and the loop re-prompts on the remaining events. -/
theorem chooseMessage_numeric_select :
    (∀ (msgs : List String) (line : String) (er : Option RErr)
        (rest : List (String × Option RErr)) (n : Int),
      isFatalErr er = false →
      sscanfInt (trimSpace line) = some n →
      1 ≤ n → n ≤ (msgs.length : Int) →
      chooseLoop msgs ((line, er) :: rest)
        = some (Except.ok (msgs.getD (n - 1).toNat "")))
    ∧ (∀ (msgs : List String) (line : String) (er : Option RErr)
        (rest : List (String × Option RErr)),
      isFatalErr er = false →
      trimSpace line ≠ "" →
      equalFold (trimSpace line) "e" = false →
      (∀ n : Int, sscanfInt (trimSpace line) = some n →
        n < 1 ∨ (msgs.length : Int) < n) →
      chooseLoop msgs ((line, er) :: rest) = chooseLoop msgs rest) := by
  constructor
  · intro msgs line er rest n hf hsc h1 h2
    have hef : equalFold (trimSpace line) "e" = false := by
      cases hefv : equalFold (trimSpace line) "e"
      · rfl
      · exfalso
        rcases equalFold_e_cases _ hefv with h5 | h5
        · rw [h5] at hsc
          rw [show sscanfInt "e" = none from rfl] at hsc
          exact Option.noConfusion hsc
        · rw [h5] at hsc
          rw [show sscanfInt "E" = none from rfl] at hsc
          exact Option.noConfusion hsc
    have htr : trimSpace line ≠ "" := by
      intro he
      rw [he] at hsc
      rw [show sscanfInt "" = none from rfl] at hsc
      exact Option.noConfusion hsc
    have hpc : parseChoice (trimSpace line) (msgs.length : Int) = Except.ok (n - 1) :=
      parseChoice_ok_of_sscanf _ _ n htr hsc h1 h2
    rw [chooseLoop_cons_ok msgs line er rest hf, if_neg (by simp [hef]), if_neg htr, hpc]
    have hlt : (n - 1).toNat < msgs.length := by omega
    show (match msgs[(n - 1).toNat]? with
      | some m => some (Except.ok m)
      | none => some (Except.error "index out of range"))
        = some (Except.ok (msgs.getD (n - 1).toNat ""))
    rw [List.getElem?_eq_getElem hlt]
    show some (Except.ok msgs[(n - 1).toNat])
        = some (Except.ok (msgs.getD (n - 1).toNat ""))
    rw [List.getD_eq_getElem?_getD, List.getElem?_eq_getElem hlt]
    rfl
  · intro msgs line er rest hf htr hef hrange
    rw [chooseLoop_cons_ok msgs line er rest hf, if_neg (by simp [hef]), if_neg htr]
    cases hpc : parseChoice (trimSpace line) (msgs.length : Int) with
    | error e => rfl
    | ok idx =>
      exfalso
      obtain ⟨n2, hsc, hge, hle, -⟩ := parseChoice_ok_sscanf _ _ _ hpc
      rcases hrange n2 hsc with h6 | h6 <;> omega

/-- Witness for C7: the line 2 selects the second of three suggestions, and
the out-of-range line 5 re-prompts before 2 is accepted. -/
theorem chooseMessage_numeric_select_wit :
    chooseLoop ["a", "b", "c"] [("2\n", none)] = some (Except.ok "b")
      ∧ chooseLoop ["a", "b", "c"] [("5\n", none), ("2\n", none)]
          = some (Except.ok "b") := by
  have hfirst : chooseLoop ["a", "b", "c"] [("2\n", none)] = some (Except.ok "b") :=
    (chooseMessage_numeric_select.1 ["a", "b", "c"] "2\n" none [] 2 rfl rfl
      (by decide) (by decide)).trans rfl
  refine ⟨hfirst, ?_⟩
  refine (chooseMessage_numeric_select.2 ["a", "b", "c"] "5\n" none [("2\n", none)] rfl
    (by decide) rfl ?_).trans hfirst
  intro n hn
  rw [show sscanfInt (trimSpace "5\n") = some 5 from rfl] at hn
  injection hn with h3
  right
  rw [show (["a", "b", "c"] : List String).length = 3 from rfl]
  omega

/-- C7 counterexample: the line 2abc is not an integer token and is neither
empty nor an edit request, yet the selector returns the second suggestion
instead of rejecting the input and re-prompting. -/
theorem chooseMessage_numeric_select_cex :
    isIntegerToken (trimSpace "2abc") = false
      ∧ trimSpace "2abc" ≠ ""
      ∧ equalFold (trimSpace "2abc") "e" = false
      ∧ chooseLoop ["a", "b", "c"] [("2abc", some RErr.eofMark)]
          = some (Except.ok "b")
      ∧ chooseLoop ["a", "b", "c"] [] = none :=
  ⟨rfl, by decide, rfl, rfl, rfl⟩

/-- C8 (amended): the letter e switches the selector to edit mode; edit mode
skips lines that are empty after trimming and returns the first line that is
non-empty after trimming, with its surrounding whitespace removed rather
than verbatim. -/
theorem promptEdit_returns_trimmed :
    (∀ (line : String) (er : Option RErr) (rest : List (String × Option RErr)),
      isFatalErr er = false → trimSpace line ≠ "" →
      promptEditLoop ((line, er) :: rest) = some (Except.ok (trimSpace line)))
    ∧ (∀ (line : String) (er : Option RErr) (rest : List (String × Option RErr)),
      isFatalErr er = false → trimSpace line = "" →
      promptEditLoop ((line, er) :: rest) = promptEditLoop rest)
    ∧ (∀ (msgs : List String) (line : String) (er : Option RErr)
        (rest : List (String × Option RErr)),
      isFatalErr er = false → equalFold (trimSpace line) "e" = true →
      chooseLoop msgs ((line, er) :: rest) = promptEditLoop rest) := by
  refine ⟨?_, ?_, ?_⟩
  · intro line er rest hf htr
    rw [promptEditLoop_cons_ok line er rest hf, if_neg htr]
  · intro line er rest hf htr
    rw [promptEditLoop_cons_ok line er rest hf, if_pos htr]
  · intro msgs line er rest hf hef
    rw [chooseLoop_cons_ok msgs line er rest hf, if_pos hef]

/-- Witness for C8: a non-blank edit line is returned trimmed, a blank line
re-prompts, and an uppercase E switches to edit mode. -/
theorem promptEdit_returns_trimmed_wit :
    promptEditLoop [("ok go\n", none)] = some (Except.ok "ok go")
      ∧ promptEditLoop [("", some RErr.eofMark), ("x\n", none)]
          = promptEditLoop [("x\n", none)]
      ∧ chooseLoop ["a"] [("E\n", none), ("msg\n", none)]
          = promptEditLoop [("msg\n", none)] :=
  ⟨(promptEdit_returns_trimmed.1 "ok go\n" none [] rfl (by decide)).trans rfl,
   promptEdit_returns_trimmed.2.1 "" (some RErr.eofMark) [("x\n", none)] rfl rfl,
   promptEdit_returns_trimmed.2.2 ["a"] "E\n" none [("msg\n", none)] rfl rfl⟩

/-- C8 counterexample: an entered line with surrounding whitespace is
returned trimmed, not verbatim. -/
theorem promptEdit_returns_trimmed_cex :
    promptEditLoop [("  hi  ", some RErr.eofMark)] = some (Except.ok "hi")
      ∧ "hi" ≠ "  hi  " :=
  ⟨rfl, by decide⟩

/-! Lemmas locating the opening brace of a successfully unmarshalled object,
used to show that the fallback list cannot be empty in that case. -/

theorem jsonWs_goIsSpace (c : Char) (h : jsonWs c = true) : goIsSpace c = true := by
  unfold jsonWs at h
  simp only [Bool.or_eq_true, decide_eq_true_eq] at h
  rcases h with ((h | h) | h) | h <;> (subst h; decide)

theorem splitNl_ne_nil : ∀ l : List Char, splitNl l ≠ [] := by
  intro l
  induction l with
  | nil => simp [splitNl]
  | cons c rest ih =>
    by_cases hc : c = '\n'
    · simp [splitNl, hc]
    · cases hsp : splitNl rest with
      | nil => exact absurd hsp ih
      | cons g gs => simp [splitNl, hc, hsp]

theorem fallback_brace_ne_nil (t : String) (tail : List Char)
    (hd : t.data = '\x7b' :: tail) : fallbackMsgs t ≠ [] := by
  unfold fallbackMsgs
  rw [hd]
  cases hsp : splitNl tail with
  | nil => exact absurd hsp (splitNl_ne_nil tail)
  | cons g gs =>
    rw [show splitNl ('\x7b' :: tail) = ('\x7b' :: g) :: gs by simp [splitNl, hsp]]
    rw [List.map_cons, List.filter_cons]
    have hsl : stripLine ('\x7b' :: g) ≠ [] := by
      unfold stripLine
      rw [show ('\x7b' :: g).dropWhile inCutset = '\x7b' :: g from
        dropWhile_self_of_head _ _ _ (by decide)]
      exact trimSpaceL_ne_nil _ _ (by decide)
    have hne : ((⟨stripLine ('\x7b' :: g)⟩ : String) != "") = true := by
      rw [bne_iff_ne, ne_eq, mk_eq_empty_iff]
      exact hsl
    rw [if_pos hne]
    exact List.cons_ne_nil _ _

theorem unmarshalPayload_shape (j : Json) (ms : List String)
    (h : unmarshalPayload j = some ms) :
    j = Json.null ∨ ∃ fl, j = Json.obj fl := by
  cases j with
  | null => exact Or.inl rfl
  | obj fl => exact Or.inr ⟨fl, rfl⟩
  | bool b => simp [unmarshalPayload] at h
  | num s => simp [unmarshalPayload] at h
  | str s => simp [unmarshalPayload] at h
  | arr xs => simp [unmarshalPayload] at h

theorem parseJVal_obj_head (fu : Nat) (cs : List Char) (fl : List (String × Json))
    (rest : List Char)
    (h : parseJVal fu cs = some (Json.obj fl, rest)) :
    ∃ r, skipWs cs = '\x7b' :: r := by
  match fu with
  | 0 => exact Option.noConfusion h
  | f + 1 =>
    rw [show parseJVal (f + 1) cs
        = (match skipWs cs with
          | [] => none
          | c :: rest =>
            if c = '"' then
              (parseJStr f rest).map (fun p => (Json.str ⟨p.1⟩, p.2))
            else if c = '\x7b' then
              match skipWs rest with
              | '\x7d' :: r2 => some (Json.obj [], r2)
              | r1 => (parseJFields f r1).map (fun p => (Json.obj p.1, p.2))
            else if c = '[' then
              match skipWs rest with
              | ']' :: r2 => some (Json.arr [], r2)
              | r1 => (parseJItems f r1).map (fun p => (Json.arr p.1, p.2))
            else if c = 't' then
              (expectLit ['r', 'u', 'e'] rest).map (fun r => (Json.bool true, r))
            else if c = 'f' then
              (expectLit ['a', 'l', 's', 'e'] rest).map (fun r => (Json.bool false, r))
            else if c = 'n' then
              (expectLit ['u', 'l', 'l'] rest).map (fun r => (Json.null, r))
            else
              (parseNumber (c :: rest)).map (fun p => (Json.num ⟨p.1⟩, p.2))) from rfl] at h
    split at h
    · exact Option.noConfusion h
    · rename_i c r hsw
      by_cases h1 : c = '"'
      · rw [if_pos h1] at h
        rw [Option.map_eq_some'] at h
        obtain ⟨p, -, hp2⟩ := h
        exact absurd (congrArg Prod.fst hp2) (by simp)
      · rw [if_neg h1] at h
        by_cases h2 : c = '\x7b'
        · subst h2
          exact ⟨r, hsw⟩
        · rw [if_neg h2] at h
          by_cases h3 : c = '['
          · rw [if_pos h3] at h
            split at h
            · exact absurd (congrArg Prod.fst (Option.some.inj h)) (by simp)
            · rw [Option.map_eq_some'] at h
              obtain ⟨p, -, hp2⟩ := h
              exact absurd (congrArg Prod.fst hp2) (by simp)
          · rw [if_neg h3] at h
            by_cases h4 : c = 't'
            · rw [if_pos h4] at h
              rw [Option.map_eq_some'] at h
              obtain ⟨p, -, hp2⟩ := h
              exact absurd (congrArg Prod.fst hp2) (by simp)
            · rw [if_neg h4] at h
              by_cases h5 : c = 'f'
              · rw [if_pos h5] at h
                rw [Option.map_eq_some'] at h
                obtain ⟨p, -, hp2⟩ := h
                exact absurd (congrArg Prod.fst hp2) (by simp)
              · rw [if_neg h5] at h
                by_cases h6 : c = 'n'
                · rw [if_pos h6] at h
                  rw [Option.map_eq_some'] at h
                  obtain ⟨p, -, hp2⟩ := h
                  exact absurd (congrArg Prod.fst hp2) (by simp)
                · rw [if_neg h6] at h
                  rw [Option.map_eq_some'] at h
                  obtain ⟨p, -, hp2⟩ := h
                  exact absurd (congrArg Prod.fst hp2) (by simp)

theorem jsonMessages_obj (t : String) (ms : List String)
    (h : jsonMessages t = some ms) :
    ∃ fl rest, parseJVal (4 * t.data.length + 16) t.data
      = some (Json.obj fl, rest) := by
  unfold jsonMessages at h
  split at h
  · exact Option.noConfusion h
  · rename_i j hp
    split at h
    · exact Option.noConfusion h
    · rename_i ms0 hu
      split at h
      · rename_i hlen
        rcases unmarshalPayload_shape j ms0 hu with rfl | ⟨fl, rfl⟩
        · have h9 : unmarshalPayload Json.null = some [] := rfl
          rw [h9] at hu
          have h10 := Option.some.inj hu
          rw [← h10] at hlen
          simp at hlen
        · unfold parseJson at hp
          split at hp
          · rename_i j0 rest0 hpv
            split at hp
            · have h11 := Option.some.inj hp
              rw [h11] at hpv
              exact ⟨fl, rest0, hpv⟩
            · exact Option.noConfusion hp
          · exact Option.noConfusion hp
      · exact Option.noConfusion h

/-- C2 counterexample: a JSON object whose only message is blank makes
parseSuggestions return a successful result with zero suggestions, so the
parser can succeed with an empty list. -/
theorem parseSuggestions_empty_success_cex :
    parseSuggestions "\x7b\"messages\":[\" \"]\x7d" = Except.ok [] := rfl

/-- C2 (amended): for every input with non-blank trimmed text, if neither
the JSON attempt nor the line-splitting fallback yields any usable entry
after normalization, parseSuggestions fails with the could-not-parse error;
however, the parser can return a successful result with zero suggestions
when the JSON attempt succeeds with entries that all normalize away. -/
theorem parseSuggestions_could_not_parse (content : String)
    (ht : trimSpace content ≠ "")
    (_hjson : ∀ ms, jsonMessages (trimSpace content) = some ms →
      normalizeMessages ms = [])
    (hfb : normalizeMessages (fallbackMsgs (trimSpace content)) = []) :
    parseSuggestions content = Except.error "could not parse suggestions" := by
  cases hjm : jsonMessages (trimSpace content) with
  | none =>
    exact parseSuggestions_fallback_err content ht hjm (fallbackMsgs_eq_nil_of_norm _ hfb)
  | some ms =>
    exfalso
    obtain ⟨fl, rest0, hpv⟩ := jsonMessages_obj _ ms hjm
    obtain ⟨r, hsw⟩ := parseJVal_obj_head _ _ _ _ hpv
    have hfb2 : fallbackMsgs (trimSpace content) = [] :=
      fallbackMsgs_eq_nil_of_norm _ hfb
    cases hd : (trimSpace content).data with
    | nil =>
      rw [hd] at hsw
      exact List.noConfusion hsw
    | cons c tail =>
      have hcw : goIsSpace c = false :=
        trimSpaceL_head content.data c tail (by rw [← trimSpace_data]; exact hd)
      have hjw : jsonWs c = false := by
        cases hjv : jsonWs c
        · rfl
        · rw [jsonWs_goIsSpace c hjv] at hcw
          exact Bool.noConfusion hcw
      rw [hd] at hsw
      rw [show skipWs (c :: tail) = c :: tail from
        dropWhile_self_of_head _ _ _ hjw] at hsw
      obtain ⟨hc, -⟩ := List.cons.inj hsw
      subst hc
      exact fallback_brace_ne_nil (trimSpace content) tail hd hfb2

/-- Witness for C2 at the input 123, which is valid JSON but not an object
and whose only line strips to nothing. -/
theorem parseSuggestions_could_not_parse_wit :
    parseSuggestions "123" = Except.error "could not parse suggestions" :=
  parseSuggestions_could_not_parse "123" (by decide)
    (fun ms h => by
      rw [show jsonMessages (trimSpace "123") = none from rfl] at h
      exact Option.noConfusion h)
    rfl
